import Mathlib

/-!
Verification development for the pycc4s core (algorithm schema and object
identity model).

The definitions below are a shallow embedding of
src/pycc4s/core/algorithms.py, src/pycc4s/core/objects.py and
src/pycc4s/core/inputs.py, together with the parts of the validation
library (pydantic v1) semantics that the code relies on:

* `.dict()` includes fields whose value is None (exclude_none defaults to
  False), and skips fields declared with Field(exclude=True);
* iterating a model (`dict(model)`, used by `as_dict`) yields the raw
  field dictionary including excluded fields;
* model equality compares the `.dict()` outputs;
* a `const=True` field must equal its default, reported as a single
  `value_error.const` validation error carrying the permitted value;
* exceptions other than ValueError/TypeError/AssertionError raised inside
  a validator (here AlgorithmInitializationError from `get_object`)
  propagate directly.

Machine floats only occur as opaque pass-through field values (never
computed with); they are represented by rationals.  Lenient cross-type
coercions of the validation library that no stored document and no claim
exercises (for example float-to-str) are not modelled; where such a value
would be coerced, the embedded validator rejects it.
-/

/-- The closed set of object variants (subclasses of `Object`).
`ResultDict` only exists in objects.py, not in algorithms.py; it is
included in the enum but never produced by the algorithms registry. -/
inductive ObjectType
  | Amplitudes
  | CoulombIntegrals
  | CoulombPotential
  | CoulombVertex
  | CoulombVertexSingularVectors
  | DeltaIntegrals
  | EigenEnergies
  | GridVectors
  | Mp2PairEnergies
  | SlicedCoulombVertex
  | SlicedEigenEnergies
  | StructureFactors
  | ResultDict
deriving DecidableEq

/-- The `_OBJECTS` registry of algorithms.py: class-name keys for every
`Object` subclass defined there, plus the two DeltaIntegrals aliases.
(`ResultDict` is not a subclass in algorithms.py, hence not a key.) -/
def OBJECTS (s : String) : Option ObjectType :=
  if s = "Amplitudes" then some .Amplitudes
  else if s = "CoulombIntegrals" then some .CoulombIntegrals
  else if s = "CoulombPotential" then some .CoulombPotential
  else if s = "CoulombVertex" then some .CoulombVertex
  else if s = "CoulombVertexSingularVectors" then some .CoulombVertexSingularVectors
  else if s = "DeltaIntegrals" then some .DeltaIntegrals
  else if s = "EigenEnergies" then some .EigenEnergies
  else if s = "GridVectors" then some .GridVectors
  else if s = "Mp2PairEnergies" then some .Mp2PairEnergies
  else if s = "SlicedCoulombVertex" then some .SlicedCoulombVertex
  else if s = "SlicedEigenEnergies" then some .SlicedEigenEnergies
  else if s = "StructureFactors" then some .StructureFactors
  else if s = "DeltaIntegralsHH" then some .DeltaIntegrals
  else if s = "DeltaIntegralsPPHH" then some .DeltaIntegrals
  else Option.none

/-- Split a character list on the slash character (path separator). -/
def splitSlash : List Char → List (List Char)
  | [] => [[]]
  | c :: cs =>
    match splitSlash cs with
    | [] => [[]]
    | p :: ps => if c = '/' then [] :: p :: ps else (c :: p) :: ps

/-- Keep a path component: pathlib drops empty and "." components. -/
def keepPart (p : List Char) : Bool :=
  match p with
  | [] => false
  | ['.'] => false
  | _ => true

/-- Characters of `Path(s).name`: the last retained path component. -/
def pathNameChars (s : List Char) : List Char :=
  match ((splitSlash s).filter keepPart).getLast? with
  | some p => p
  | Option.none => []

/-- Index of the last occurrence of a character, if any. -/
def lastIdxOf (c : Char) : List Char → Option Nat
  | [] => Option.none
  | x :: xs =>
    match lastIdxOf c xs with
    | some i => some (i + 1)
    | Option.none => if x = c then some 0 else Option.none

/-- Remove the pathlib suffix from a file name: the portion from the last
dot, provided that dot is neither the first nor the last character
(`0 < i < len - 1`, matching PurePath.suffix). -/
def stemChars (n : List Char) : List Char :=
  match lastIdxOf '.' n with
  | some i => if 0 < i ∧ i + 1 < n.length then n.take i else n
  | Option.none => n

/-- `Path(s).with_suffix("").name`: the stem used by `get_object` to
infer an object type from a filename.  `with_suffix` raises ValueError
when the path has an empty name (for example "", "." or "/"); None is
that raised ValueError, Some the stripped name. -/
def stem? (s : String) : Option String :=
  match pathNameChars s.data with
  | [] => Option.none
  | n => some ⟨stemChars n⟩

/-- The stem on the domain where `with_suffix` does not raise, extended
by "" elsewhere.  The default is never consulted under a hypothesis of
the form `OBJECTS (stem f) = some v`, because "" is not a registered
name (see `stem?_some_of_registered`). -/
def stem (s : String) : String := (stem? s).getD ""

deriving instance DecidableEq for Except

/-- A typed object handle: variant tag plus the name string it carries
(the Python classes subclass str; equality compares class and content). -/
structure TypedObject where
  type : ObjectType
  name : String
deriving DecidableEq

/-- One entry of a pydantic ValidationError: a `value_error.const` entry
carrying its ctx (given value, permitted values), or a field-level
validation failure recorded under the field name (this covers both type
errors and ValueError raised inside `str_validation`). -/
inductive VErr
  | const (given : String) (permitted : List String)
  | fieldErr (loc : String)
deriving DecidableEq

/-- Exceptions raised by the embedded code: a raw dictionary KeyError, the
AlgorithmInitializationError of algorithms.py, a pydantic ValidationError
carrying its list of errors, the TypeError raised on assignment to an
immutable field, and the ValueError raised by pathlib's `with_suffix` on
a path with an empty name (only the exception type is load-bearing; the
real message interpolates the path repr). -/
inductive PyErr
  | keyError (key : String)
  | algorithmInitializationError (msg : String)
  | validationError (errors : List VErr)
  | typeError (msg : String)
  | valueError (msg : String)
deriving DecidableEq

/-- Whether an exception belongs to the AlgorithmError taxonomy of
algorithms.py (AlgorithmError / AlgorithmInitializationError). -/
def isAlgorithmError : PyErr → Bool
  | .algorithmInitializationError _ => true
  | _ => false

/-- `get_object(filename_or_string, destination, object_type)` of
algorithms.py.  Returns the constructed handle together with the number
of AlgorithmInitializationWarning emissions. -/
def get_object (filename_or_string destination : String)
    (object_type : Option String) : Except PyErr (TypedObject × Nat) :=
  let cls? := object_type.bind OBJECTS
  match stem? filename_or_string with
  | Option.none =>
      -- fpath.with_suffix("") raises before and regardless of the
      -- explicit-type branch
      .error (.valueError "has an empty name")
  | some st =>
    match cls?, OBJECTS st with
    | Option.none, Option.none =>
        .error (.algorithmInitializationError "Cannot figure out type of Object.")
    | Option.none, some c => .ok (⟨c, destination⟩, 0)
    | some c, Option.none => .ok (⟨c, destination⟩, 0)
    | some c, some cf => .ok (⟨c, destination⟩, if c = cf then 0 else 1)

example : stem "CoulombVertex.yaml" = "CoulombVertex" := by decide
example : stem "dir/CoulombVertex.yaml" = "CoulombVertex" := by decide
example : stem "CoulombVertex2.yaml" = "CoulombVertex2" := by decide
example : stem "State" = "State" := by decide
example : stem? "." = Option.none := by decide
example : stem? "" = Option.none := by decide
example : stem? "/" = Option.none := by decide
example : stem? "a/.." = some ".." := by decide

/-- A hypothesis of the form `OBJECTS (stem f) = some v` pins the domain
where `with_suffix` does not raise: "" is not a registered name. -/
theorem stem?_some_of_registered (f : String) (v : ObjectType)
    (h : OBJECTS (stem f) = some v) : stem? f = some (stem f) := by
  cases hs : stem? f with
  | none =>
    rw [show stem f = (stem? f).getD "" from rfl, hs] at h
    rw [show ((Option.none : Option String).getD "") = "" from rfl] at h
    rw [show OBJECTS "" = Option.none from by decide] at h
    exact absurd h (by simp)
  | some st => simp [stem, hs]

/-- C2: if the explicit object-type name resolves to a registered variant
and the filename stem resolves to a different registered variant, then
`get_object` succeeds, emits exactly one AlgorithmInitializationWarning,
and returns a handle of the explicit variant carrying the destination
name. -/
theorem get_object_explicit_wins (T f d : String) (vT vF : ObjectType)
    (hT : OBJECTS T = some vT) (hF : OBJECTS (stem f) = some vF)
    (hne : vT ≠ vF) :
    get_object f d (some T) = .ok (⟨vT, d⟩, 1) := by
  have hsf := stem?_some_of_registered f vF hF
  unfold get_object
  simp only [Option.some_bind, hsf]
  rw [hT, hF]
  simp [hne]

/-- C2 witness: the conflicting resolution of the spec scenario,
`resolve("CoulombIntegrals", "CoulombVertex.yaml")`. -/
theorem get_object_explicit_wins_witness :
    OBJECTS "CoulombIntegrals" = some .CoulombIntegrals ∧
    OBJECTS (stem "CoulombVertex.yaml") = some .CoulombVertex ∧
    get_object "CoulombVertex.yaml" "tada" (some "CoulombIntegrals") =
      .ok (⟨.CoulombIntegrals, "tada"⟩, 1) :=
  ⟨by decide, by decide,
    get_object_explicit_wins "CoulombIntegrals" "CoulombVertex.yaml" "tada"
      .CoulombIntegrals .CoulombVertex (by decide) (by decide) (by decide)⟩

/-- C3 counterexample: for the degenerate filename "." (a path with an
empty name, whose stem cannot be computed), `get_object` with no
explicit type raises pathlib's ValueError from `with_suffix("")`, not
the AlgorithmInitializationError the claim demands for every filename
without a registered stem. -/
theorem get_object_inference_cex :
    get_object "." "tada" Option.none =
      .error (.valueError "has an empty name") ∧
    isAlgorithmError (.valueError "has an empty name") = false := by decide

/-- C3 amended: with no explicit object type, for a filename whose path
name is non-empty (so the stem exists), `get_object` fails with
AlgorithmInitializationError when the stem is not a registered name or
alias and returns the inferred variant without warning when it is; for a
filename with an empty path name it instead raises the ValueError of
`with_suffix("")`. -/
theorem get_object_inference (f d : String) :
    (∀ st, stem? f = some st → OBJECTS st = Option.none →
      get_object f d Option.none =
        .error (.algorithmInitializationError "Cannot figure out type of Object.")) ∧
    (∀ st v, stem? f = some st → OBJECTS st = some v →
      get_object f d Option.none = .ok (⟨v, d⟩, 0)) ∧
    (stem? f = Option.none →
      get_object f d Option.none = .error (.valueError "has an empty name")) := by
  refine ⟨?_, ?_, ?_⟩
  · intro st hst h
    unfold get_object
    simp [hst, h]
  · intro st v hst h
    unfold get_object
    simp [hst, h]
  · intro h
    unfold get_object
    simp [h]

/-- C3 witness: the two resolver-policy scenarios of the spec,
`resolve(None, "CoulombVertex2.yaml")` failing and
`resolve(None, "CoulombVertex.yaml")` succeeding, plus the degenerate
"." raising ValueError. -/
theorem get_object_inference_witness :
    stem? "CoulombVertex2.yaml" = some "CoulombVertex2" ∧
    OBJECTS "CoulombVertex2" = Option.none ∧
    get_object "CoulombVertex2.yaml" "tada" Option.none =
      .error (.algorithmInitializationError "Cannot figure out type of Object.") ∧
    stem? "CoulombVertex.yaml" = some "CoulombVertex" ∧
    OBJECTS "CoulombVertex" = some .CoulombVertex ∧
    get_object "CoulombVertex.yaml" "tada" Option.none =
      .ok (⟨.CoulombVertex, "tada"⟩, 0) ∧
    stem? "." = Option.none ∧
    get_object "." "tada" Option.none = .error (.valueError "has an empty name") :=
  ⟨by decide, by decide,
    (get_object_inference "CoulombVertex2.yaml" "tada").1 "CoulombVertex2"
      (by decide) (by decide),
    by decide, by decide,
    (get_object_inference "CoulombVertex.yaml" "tada").2.1 "CoulombVertex"
      .CoulombVertex (by decide) (by decide),
    by decide,
    (get_object_inference "." "tada").2.2 (by decide)⟩

/-! ## Raw documents, field schemas and validation -/

/-- A yaml scalar as produced by safe_load: string, integer, float
(represented by a rational; floats are only carried, never computed
with), or null. -/
inductive Scalar
  | s (v : String)
  | i (v : Int)
  | r (v : Rat)
  | null
deriving DecidableEq

/-- A raw field value in a parsed document: a scalar, or a one-level
nested mapping of scalars (the mixer sub-record is the only nested
mapping in the schemas). -/
inductive RVal
  | sc (v : Scalar)
  | map (kvs : List (String × Scalar))
deriving DecidableEq

/-- First-match association-list lookup (Python dict access on documents,
which hold each key once). -/
def alookup {α : Type} (n : String) : List (String × α) → Option α
  | [] => Option.none
  | (k, v) :: kvs => if k = n then some v else alookup n kvs

/-- Remove every leading and trailing double-quote character:
Python `v.strip(c)` with c the double quote. -/
def stripQuoteChars (l : List Char) : List Char :=
  ((l.dropWhile (· = '"')).reverse.dropWhile (· = '"')).reverse

/-- `v.strip` specialised to the double-quote character, as used by
`InOutModel.str_validation` on FName fields. -/
def stripQuotes (s : String) : String := ⟨stripQuoteChars s.data⟩

/-- Whether a string contains a double-quote character. -/
def hasQuote (s : String) : Bool := s.data.contains '"'

/-- Declared type of a schema field: primitive, filename, typed object of
a pinned variant, or the nested mixer record. -/
inductive FieldType
  | str
  | int
  | float
  | fname
  | obj (t : ObjectType)
  | mixer
deriving DecidableEq

/-- One declared field of an Input/Output schema: its name, declared
type, whether it is Optional, and whether it carries
Field(exclude=True). -/
structure FieldSpec where
  name : String
  type : FieldType
  optional : Bool
  excluded : Bool
deriving DecidableEq

/-- A validated field value as held on a constructed record: primitives,
an FName string, a typed object handle, the validated mixer sub-record,
or None for an optional field that was not provided. -/
inductive FVal
  | str (v : String)
  | int (v : Int)
  | float (v : Rat)
  | fname (v : String)
  | obj (o : TypedObject)
  | mixer (mixType : String) (maxResidua : Option Int) (rat : Option Rat)
  | null
deriving DecidableEq

/-- Validation of the nested MixerModel (type: str, maxResidua:
Optional[int], ratio: Optional[float]); extra keys are ignored, as by the
validation library. -/
def validateMixer (kvs : List (String × Scalar)) : Option FVal :=
  let t? : Option String :=
    match alookup "type" kvs with
    | some (.s t) => some t
    | some (.i n) => some (toString n)
    | _ => Option.none
  let mr? : Option (Option Int) :=
    match alookup "maxResidua" kvs with
    | Option.none => some Option.none
    | some .null => some Option.none
    | some (.i n) => some (some n)
    | some _ => Option.none
  let rt? : Option (Option Rat) :=
    match alookup "ratio" kvs with
    | Option.none => some Option.none
    | some .null => some Option.none
    | some (.r q) => some (some q)
    | some (.i n) => some (some (n : Rat))
    | some _ => Option.none
  match t?, mr?, rt? with
  | some t, some mr, some rt => some (.mixer t mr rt)
  | _, _, _ => Option.none

/-- Standard validation of a scalar against a declared field type,
followed by `InOutModel.str_validation`: FName values have surrounding
double quotes stripped and are rejected if a quote remains; strings for
object-typed fields are wrapped into the declared variant.  Integer
scalars are coerced to strings/floats where the validation library does
so. -/
def validateScalar (ft : FieldType) (v : Scalar) : Option FVal :=
  match ft, v with
  | .str, .s v => some (.str v)
  | .str, .i n => some (.str (toString n))
  | .int, .i n => some (.int n)
  | .float, .r q => some (.float q)
  | .float, .i n => some (.float (n : Rat))
  | .fname, .s v =>
      let st := stripQuotes v
      if hasQuote st then Option.none else some (.fname st)
  | .fname, .i n =>
      let st := stripQuotes (toString n)
      if hasQuote st then Option.none else some (.fname st)
  | .obj t, .s v => some (.obj ⟨t, v⟩)
  | .obj t, .i n => some (.obj ⟨t, toString n⟩)
  | _, _ => Option.none

/-- Validate one provided raw value against its field spec.  None is only
accepted for Optional fields; a nested mapping only for the mixer
field. -/
def validateField (sp : FieldSpec) (rv : RVal) : Option FVal :=
  match rv with
  | .map kvs => if sp.type = .mixer then validateMixer kvs else Option.none
  | .sc .null => if sp.optional then some .null else Option.none
  | .sc v => if sp.type = .mixer then Option.none else validateScalar sp.type v

/-- Validate a raw mapping against a schema, collecting one error per
failing field (as pydantic does) and producing the validated fields in
declaration order.  Missing optional fields become None; extra raw keys
are ignored. -/
def validateSchemaAcc (sch : List FieldSpec) (raw : List (String × RVal)) :
    List VErr × List (String × FVal) :=
  match sch with
  | [] => ([], [])
  | sp :: rest =>
    let acc := validateSchemaAcc rest raw
    match alookup sp.name raw with
    | Option.none =>
        if sp.optional then (acc.1, (sp.name, .null) :: acc.2)
        else (.fieldErr sp.name :: acc.1, acc.2)
    | some rv =>
        match validateField sp rv with
        | some fv => (acc.1, (sp.name, fv) :: acc.2)
        | Option.none => (.fieldErr sp.name :: acc.1, acc.2)

/-! ## The algorithm kind registry and the per-kind schemas -/

/-- The closed set of algorithm kinds (the BaseAlgo subclasses). -/
inductive AlgoKind
  | Read
  | Write
  | DefineHolesAndParticles
  | SliceOperator
  | VertexCoulombIntegrals
  | CoupledCluster
  | FiniteSizeCorrection
  | BasisSetCorrection
  | PerturbativeTriples
  | SecondOrderPerturbationTheory
deriving DecidableEq

/-- The kind name derived from the class name minus the "Algo" suffix;
installed as the const default of the name field by __init_subclass__. -/
def kindName : AlgoKind → String
  | .Read => "Read"
  | .Write => "Write"
  | .DefineHolesAndParticles => "DefineHolesAndParticles"
  | .SliceOperator => "SliceOperator"
  | .VertexCoulombIntegrals => "VertexCoulombIntegrals"
  | .CoupledCluster => "CoupledCluster"
  | .FiniteSizeCorrection => "FiniteSizeCorrection"
  | .BasisSetCorrection => "BasisSetCorrection"
  | .PerturbativeTriples => "PerturbativeTriples"
  | .SecondOrderPerturbationTheory => "SecondOrderPerturbationTheory"

/-- The `_ALGOS` registry: derived kind name to kind. -/
def ALGOS (s : String) : Option AlgoKind :=
  if s = "Read" then some .Read
  else if s = "Write" then some .Write
  else if s = "DefineHolesAndParticles" then some .DefineHolesAndParticles
  else if s = "SliceOperator" then some .SliceOperator
  else if s = "VertexCoulombIntegrals" then some .VertexCoulombIntegrals
  else if s = "CoupledCluster" then some .CoupledCluster
  else if s = "FiniteSizeCorrection" then some .FiniteSizeCorrection
  else if s = "BasisSetCorrection" then some .BasisSetCorrection
  else if s = "PerturbativeTriples" then some .PerturbativeTriples
  else if s = "SecondOrderPerturbationTheory" then some .SecondOrderPerturbationTheory
  else Option.none

/-- Input schemas, fields in declaration order.  `object_type` of Read is
Optional and declared with Field(exclude=True). -/
def inputSchema : AlgoKind → List FieldSpec
  | .Read =>
      [⟨"fileName", .fname, false, false⟩,
       ⟨"object_type", .str, true, true⟩]
  | .Write =>
      [⟨"source", .str, false, false⟩,
       ⟨"fileName", .fname, false, false⟩,
       ⟨"binary", .int, true, false⟩]
  | .DefineHolesAndParticles =>
      [⟨"eigenEnergies", .obj .EigenEnergies, false, false⟩]
  | .SliceOperator =>
      [⟨"slicedEigenEnergies", .obj .SlicedEigenEnergies, false, false⟩,
       ⟨"operator", .obj .CoulombVertex, false, false⟩]
  | .VertexCoulombIntegrals =>
      [⟨"slicedCoulombVertex", .obj .SlicedCoulombVertex, false, false⟩]
  | .CoupledCluster =>
      [⟨"method", .str, false, false⟩,
       ⟨"linearized", .int, true, false⟩,
       ⟨"integralsSliceSize", .int, false, false⟩,
       ⟨"slicedEigenEnergies", .obj .SlicedEigenEnergies, false, false⟩,
       ⟨"coulombIntegrals", .obj .CoulombIntegrals, false, false⟩,
       ⟨"slicedCoulombVertex", .obj .SlicedCoulombVertex, false, false⟩,
       ⟨"maxIterations", .int, false, false⟩,
       ⟨"energyConvergence", .float, false, false⟩,
       ⟨"amplitudesConvergence", .float, false, false⟩,
       ⟨"mixer", .mixer, false, false⟩,
       ⟨"initialAmplitudes", .obj .Amplitudes, true, false⟩]
  | .FiniteSizeCorrection =>
      [⟨"amplitudes", .obj .Amplitudes, false, false⟩,
       ⟨"coulombPotential", .obj .CoulombPotential, false, false⟩,
       ⟨"slicedCoulombVertex", .obj .SlicedCoulombVertex, false, false⟩,
       ⟨"coulombVertexSingularVectors", .obj .CoulombVertexSingularVectors, false, false⟩,
       ⟨"gridVectors", .obj .GridVectors, false, false⟩,
       ⟨"interpolationGridSize", .int, true, false⟩]
  | .BasisSetCorrection =>
      [⟨"amplitudes", .obj .Amplitudes, false, false⟩,
       ⟨"coulombIntegrals", .obj .CoulombIntegrals, false, false⟩,
       ⟨"slicedEigenEnergies", .obj .SlicedEigenEnergies, false, false⟩,
       ⟨"mp2PairEnergies", .obj .Mp2PairEnergies, false, false⟩,
       ⟨"deltaIntegralsHH", .obj .DeltaIntegrals, false, false⟩,
       ⟨"deltaIntegralsPPHH", .obj .DeltaIntegrals, false, false⟩]
  | .PerturbativeTriples =>
      [⟨"amplitudes", .obj .Amplitudes, false, false⟩,
       ⟨"coulombIntegrals", .obj .CoulombIntegrals, false, false⟩,
       ⟨"slicedEigenEnergies", .obj .SlicedEigenEnergies, false, false⟩,
       ⟨"mp2PairEnergies", .obj .Mp2PairEnergies, false, false⟩]
  | .SecondOrderPerturbationTheory =>
      [⟨"coulombIntegrals", .obj .CoulombIntegrals, false, false⟩,
       ⟨"slicedEigenEnergies", .obj .SlicedEigenEnergies, false, false⟩]

/-- Output schemas, fields in declaration order.  Read's destination is
declared as a plain str; the destination_object validator later replaces
it with a typed object handle. -/
def outputSchema : AlgoKind → List FieldSpec
  | .Read => [⟨"destination", .str, false, false⟩]
  | .Write => []
  | .DefineHolesAndParticles =>
      [⟨"slicedEigenEnergies", .obj .SlicedEigenEnergies, false, false⟩]
  | .SliceOperator =>
      [⟨"slicedOperator", .obj .SlicedCoulombVertex, false, false⟩]
  | .VertexCoulombIntegrals =>
      [⟨"coulombIntegrals", .obj .CoulombIntegrals, false, false⟩]
  | .CoupledCluster => [⟨"amplitudes", .obj .Amplitudes, false, false⟩]
  | .FiniteSizeCorrection =>
      [⟨"transitionStructureFactor", .obj .StructureFactors, false, false⟩]
  | .BasisSetCorrection => []
  | .PerturbativeTriples => []
  | .SecondOrderPerturbationTheory => []

/-- A validated algorithm record: kind plus validated input and output
field lists (declaration order, as in the model dictionary). -/
structure Algo where
  kind : AlgoKind
  input : List (String × FVal)
  output : List (String × FVal)
deriving DecidableEq

/-- The destination_object validator of ReadAlgo: replace the output's
destination by the handle resolved from the input fileName, the raw
destination string and the optional object_type hint.  When the input
record failed validation, accessing values["input"] inside the validator
raises KeyError (not caught by the validation library). -/
def readDestination (inVal outVal : List (String × FVal)) :
    Except PyErr (List (String × FVal)) :=
  match alookup "fileName" inVal, alookup "destination" outVal with
  | some (.fname f), some (.str d) =>
      let ot : Option String :=
        match alookup "object_type" inVal with
        | some (.str t) => some t
        | _ => Option.none
      match get_object f d ot with
      | .ok (o, _) => .ok [("destination", .obj o)]
      | .error e => .error e
  | _, _ => .error (.keyError "input")

/-- Construct an algorithm record of a given kind, optionally with an
explicit name, from raw input/output mappings: the const name check, the
schema validation of both records, Read's destination_object validator
(which runs when the output validated and whose
AlgorithmInitializationError propagates uncollected), and the final
ValidationError when field or const errors were collected. -/
def mkAlgoCore (k : AlgoKind) (nameErrs : List VErr)
    (inAcc outAcc : List VErr × List (String × FVal)) : Except PyErr Algo :=
  match k with
  | .Read =>
    if outAcc.1 = [] then
      if inAcc.1 = [] then
        match readDestination inAcc.2 outAcc.2 with
        | .error (.valueError _) =>
            -- a ValueError raised inside a validator (here pathlib's,
            -- from with_suffix) is caught by the validation library and
            -- collected as an error on the output field
            .error (.validationError (nameErrs ++ [.fieldErr "output"]))
        | .error e => .error e
        | .ok outVal2 =>
          if nameErrs = [] then .ok ⟨k, inAcc.2, outVal2⟩
          else .error (.validationError nameErrs)
      else .error (.keyError "input")
    else .error (.validationError (nameErrs ++ inAcc.1 ++ outAcc.1))
  | _ =>
    match nameErrs ++ inAcc.1 ++ outAcc.1 with
    | [] => .ok ⟨k, inAcc.2, outAcc.2⟩
    | errs => .error (.validationError errs)

/-- The const check of the name field: a provided name must equal the
kind name installed as the field default, otherwise a single
value_error.const entry with ctx {given, permitted} is recorded. -/
def nameErrsOf (k : AlgoKind) : Option String → List VErr
  | some s => if s = kindName k then [] else [.const s [kindName k]]
  | Option.none => []

def mkAlgoNamed (k : AlgoKind) (name? : Option String)
    (inRaw outRaw : List (String × RVal)) : Except PyErr Algo :=
  mkAlgoCore k (nameErrsOf k name?)
    (validateSchemaAcc (inputSchema k) inRaw)
    (validateSchemaAcc (outputSchema k) outRaw)

/-- A raw record of the document: its name and the raw `in`/`out`
mappings. -/
structure RawAlgo where
  name : String
  input : List (String × RVal)
  output : List (String × RVal)
deriving DecidableEq

/-- `get_algo(d)`: look the name up in `_ALGOS` (a plain dictionary
access, raising KeyError on a miss) and construct
`cls_(name=d["name"], input=d["in"], output=d["out"])`. -/
def get_algo (d : RawAlgo) : Except PyErr Algo :=
  match ALGOS d.name with
  | Option.none => .error (.keyError d.name)
  | some k => mkAlgoNamed k (some d.name) d.input d.output

example :
    get_algo ⟨"Read", [("fileName", .sc (.s "CoulombVertex.yaml"))],
      [("destination", .sc (.s "tada"))]⟩ =
    .ok ⟨.Read,
      [("fileName", .fname "CoulombVertex.yaml"), ("object_type", .null)],
      [("destination", .obj ⟨.CoulombVertex, "tada"⟩)]⟩ := by decide

/-! ## Serialization: the `.dict()` document form, `as_dict`, and the
yaml round trip at the document level -/

/-- A scalar value as it appears inside the `.dict()` output: it keeps
the Python runtime class (plain str, FName, Object variant) because that
is what record equality compares; only the yaml text erases the class. -/
inductive DScalar
  | str (v : String)
  | fname (v : String)
  | obj (o : TypedObject)
  | int (v : Int)
  | float (v : Rat)
  | null
deriving DecidableEq

/-- A `.dict()` field value: scalar or the nested mixer dictionary. -/
inductive DVal
  | sc (v : DScalar)
  | map (kvs : List (String × DScalar))
deriving DecidableEq

/-- Optional int as serialized in the mixer dictionary. -/
def optIntD : Option Int → DScalar
  | some n => .int n
  | Option.none => .null

/-- Optional float as serialized in the mixer dictionary. -/
def optRatD : Option Rat → DScalar
  | some q => .float q
  | Option.none => .null

/-- A validated field value as it appears in the `.dict()` output (the
mixer sub-model serializes its fields in declaration order, None
included). -/
def fvalToD : FVal → DVal
  | .str v => .sc (.str v)
  | .int v => .sc (.int v)
  | .float v => .sc (.float v)
  | .fname v => .sc (.fname v)
  | .obj o => .sc (.obj o)
  | .null => .sc .null
  | .mixer t mr rt =>
      .map [("type", .str t), ("maxResidua", optIntD mr), ("ratio", optRatD rt)]

/-- Whether a field name is declared with Field(exclude=True) in the
schema (only Read's object_type is). -/
def isExcludedIn (sch : List FieldSpec) (n : String) : Bool :=
  sch.any (fun sp => sp.name = n && sp.excluded)

/-- The document form {"name": ..., "in": ..., "out": ...} produced by
`BaseAlgo.dict` (and, element-wise, by `CC4SIn.dict`). -/
structure DAlgo where
  name : String
  input : List (String × DVal)
  output : List (String × DVal)
deriving DecidableEq

/-- `.dict()` of one validated record: every field in declaration order,
skipping fields declared with Field(exclude=True); None values are
included (exclude_none defaults to False). -/
def serializeFields (sch : List FieldSpec) :
    List (String × FVal) → List (String × DVal)
  | [] => []
  | (n, v) :: fs =>
    if isExcludedIn sch n then serializeFields sch fs
    else (n, fvalToD v) :: serializeFields sch fs

/-- `BaseAlgo.dict`: pydantic dict of the three fields with input/output
renamed to in/out. -/
def dictOfAlgo (a : Algo) : DAlgo :=
  ⟨kindName a.kind, serializeFields (inputSchema a.kind) a.input,
    serializeFields (outputSchema a.kind) a.output⟩

/-- The "in" entry of `BaseAlgo.as_dict`: `dict(self.input)` iterates the
raw field dictionary, so excluded fields are NOT skipped.  (The @module,
@class and @version metadata entries of as_dict are not modelled.) -/
def asDictIn (a : Algo) : List (String × DVal) :=
  a.input.map (fun p => (p.1, fvalToD p.2))

/-- What the yaml layer (MyDumper then yaml.safe_load) leaves of a
serialized scalar: FName is written quoted and read back as its plain
content, an Object is written as its name string; the str-ness of plain
scalars is preserved by the dumper.  Quoting itself is cosmetic and not
modelled. -/
def scalarOfD : DScalar → Scalar
  | .str v => .s v
  | .fname v => .s v
  | .obj o => .s o.name
  | .int v => .i v
  | .float v => .r v
  | .null => .null

/-- Yaml erasure of a serialized field value. -/
def rawOfD : DVal → RVal
  | .sc v => .sc (scalarOfD v)
  | .map kvs => .map (kvs.map (fun p => (p.1, scalarOfD p.2)))

/-- The raw record obtained by writing a `.dict()` document form to yaml
and parsing it back. -/
def dumpAlgo (d : DAlgo) : RawAlgo :=
  ⟨d.name, d.input.map (fun p => (p.1, rawOfD p.2)),
    d.output.map (fun p => (p.1, rawOfD p.2))⟩

/-- `CC4SIn.dict`: the list of per-record document forms. -/
def storeDicts (P : List Algo) : List DAlgo := P.map dictOfAlgo

/-- `store`: write the program to the line-oriented document and parse
the text back into raw records (the composition of `CC4SIn.to_file` and
yaml.safe_load). -/
def storeProgram (P : List Algo) : List RawAlgo := (storeDicts P).map dumpAlgo

/-- `CC4SIn.from_file` on a parsed document: validate each raw record via
`get_algo`, aborting at the first failure. -/
def loadProgram : List RawAlgo → Except PyErr (List Algo)
  | [] => .ok []
  | d :: ds =>
    match get_algo d with
    | .error e => .error e
    | .ok a =>
      match loadProgram ds with
      | .error e => .error e
      | .ok rest => .ok (a :: rest)

/-! ## Kind lookup failures (C7), the const name invariant (C4), and
ReadAlgo.build (C9) -/

/-- C7 counterexample: a record whose name matches no registered kind
makes `get_algo` raise a plain dictionary KeyError, which is not an
exception of the AlgorithmError taxonomy. -/
theorem get_algo_unknown_kind_cex :
    get_algo ⟨"Foo", [], []⟩ = .error (.keyError "Foo") ∧
    isAlgorithmError (.keyError "Foo") = false := by decide

/-- C7 amended: when the record's name matches no registered algorithm
kind, `get_algo` fails immediately, but with the KeyError of the plain
`_ALGOS[d["name"]]` dictionary access, not with an initialization error
of the algorithm-error taxonomy. -/
theorem get_algo_unknown_kind (d : RawAlgo) (h : ALGOS d.name = Option.none) :
    get_algo d = .error (.keyError d.name) := by
  unfold get_algo
  rw [h]

/-- C7 witness: the amended behaviour at a concrete unregistered name. -/
theorem get_algo_unknown_kind_witness :
    ALGOS "Bar" = Option.none ∧
    get_algo ⟨"Bar", [], []⟩ = .error (.keyError "Bar") :=
  ⟨by decide, get_algo_unknown_kind ⟨"Bar", [], []⟩ (by decide)⟩

/-- If a construction succeeds with no name error, then the same
construction with a nonempty list of const errors fails with exactly
those errors (the field validations are unaffected by the name check). -/
theorem mkAlgoCore_name_errs (k : AlgoKind) (errs : List VErr)
    (he : errs ≠ []) (inAcc outAcc : List VErr × List (String × FVal))
    (a : Algo) (hok : mkAlgoCore k [] inAcc outAcc = .ok a) :
    mkAlgoCore k errs inAcc outAcc = .error (.validationError errs) := by
  cases k
  case Read =>
    simp only [mkAlgoCore] at hok ⊢
    split at hok
    next hout =>
      split at hok
      next hin =>
        split at hok
        next => exact absurd hok (by simp)
        next => exact absurd hok (by simp)
        next outVal2 heq => simp [he, hout, hin]
      next hin => exact absurd hok (by simp)
    next hout => exact absurd hok (by simp)
  all_goals
    simp only [mkAlgoCore, List.nil_append] at hok ⊢
    split at hok
    next heq =>
      obtain ⟨h1, h2⟩ := List.append_eq_nil.mp heq
      rw [h1, h2]
      cases errs with
      | nil => exact absurd rfl he
      | cons e es => simp
    next => exact absurd hok (by simp)

/-- The TypeError message raised by pydantic __setattr__ for a field with
allow_mutation=False under validate_assignment. -/
def nameMutationMsg : String :=
  "\"name\" has allow_mutation set to False and cannot be assigned"

/-- Assignment to the name field of a constructed record.  The model
config sets validate_assignment and the name field allow_mutation=False,
so the assignment raises TypeError unconditionally. -/
def assignName (_a : Algo) (_v : String) : Except PyErr Algo :=
  .error (.typeError nameMutationMsg)

/-- C4: for every registered kind, constructing a record with an explicit
name different from the derived kind name fails with exactly one
validation error whose ctx names the permitted value (given an otherwise
valid construction), and assigning to the name field of a constructed
record always fails. -/
theorem const_name_invariant (k : AlgoKind) (s : String)
    (hs : s ≠ kindName k) (inRaw outRaw : List (String × RVal)) (a : Algo)
    (hok : mkAlgoNamed k (some (kindName k)) inRaw outRaw = .ok a) :
    mkAlgoNamed k (some s) inRaw outRaw =
      .error (.validationError [.const s [kindName k]]) ∧
    (∀ b : Algo, ∀ t : String,
      assignName b t = .error (.typeError nameMutationMsg)) := by
  refine ⟨?_, fun b t => rfl⟩
  have h0 : nameErrsOf k (some (kindName k)) = [] := by simp [nameErrsOf]
  have h1 : nameErrsOf k (some s) = [.const s [kindName k]] := by
    simp [nameErrsOf, hs]
  unfold mkAlgoNamed at hok ⊢
  rw [h1]
  rw [h0] at hok
  exact mkAlgoCore_name_errs k _ (by simp) _ _ a hok

/-- C4 witness: the repo scenario, a Read record constructed with
name="somename" against an otherwise valid input/output. -/
theorem const_name_invariant_witness :
    "somename" ≠ kindName .Read ∧
    mkAlgoNamed .Read (some "Read")
      [("fileName", .sc (.s "CoulombVertex.yaml"))]
      [("destination", .sc (.s "tada"))] =
      .ok ⟨.Read,
        [("fileName", .fname "CoulombVertex.yaml"), ("object_type", .null)],
        [("destination", .obj ⟨.CoulombVertex, "tada"⟩)]⟩ ∧
    mkAlgoNamed .Read (some "somename")
      [("fileName", .sc (.s "CoulombVertex.yaml"))]
      [("destination", .sc (.s "tada"))] =
      .error (.validationError [.const "somename" ["Read"]]) :=
  ⟨by decide, by decide,
    (const_name_invariant .Read "somename" (by decide)
      [("fileName", .sc (.s "CoulombVertex.yaml"))]
      [("destination", .sc (.s "tada"))]
      ⟨.Read,
        [("fileName", .fname "CoulombVertex.yaml"), ("object_type", .null)],
        [("destination", .obj ⟨.CoulombVertex, "tada"⟩)]⟩ (by decide)).1⟩

/-- `ReadAlgo.build(filename, destination, object_type)`: constructs the
record from filename and destination, dropping its object_type argument
(the source never forwards it into the input mapping). -/
def ReadAlgo_build (filename destination : String)
    (_objectType : Option String) : Except PyErr Algo :=
  mkAlgoNamed .Read Option.none
    [("fileName", .sc (.s filename))]
    [("destination", .sc (.s destination))]

/-- C9 counterexample: for the degenerate filename "." (stem not
computable, hence in particular not a registered name), `ReadAlgo.build`
raises a ValidationError wrapping pathlib's ValueError — not an
AlgorithmInitializationError — and the direct construction with a valid
object_type hint fails identically instead of succeeding, because
`with_suffix("")` raises before the explicit type is consulted. -/
theorem read_build_cex :
    ReadAlgo_build "." "tada" (some "CoulombVertex") =
      .error (.validationError [.fieldErr "output"]) ∧
    mkAlgoNamed .Read Option.none
      [("fileName", .sc (.s ".")), ("object_type", .sc (.s "CoulombVertex"))]
      [("destination", .sc (.s "tada"))] =
      .error (.validationError [.fieldErr "output"]) ∧
    isAlgorithmError (.validationError [.fieldErr "output"]) = false := by
  decide

/-- C9 amended: for a filename whose stripped value has a computable
stem that is not a registered variant name, `ReadAlgo.build` raises
AlgorithmInitializationError even when its object_type argument names a
registered variant (the argument is silently dropped), whereas the
direct construction with the same hint in the input mapping succeeds;
for a filename with an empty path name both constructions instead fail
with a ValidationError wrapping pathlib's ValueError (see the
counterexample). -/
theorem read_build_ignores_object_type (f d t st : String)
    (v : ObjectType)
    (hq : hasQuote (stripQuotes f) = false)
    (hst : stem? (stripQuotes f) = some st)
    (hstem : OBJECTS st = Option.none)
    (ht : OBJECTS t = some v) :
    ReadAlgo_build f d (some t) =
      .error (.algorithmInitializationError "Cannot figure out type of Object.") ∧
    mkAlgoNamed .Read Option.none
      [("fileName", .sc (.s f)), ("object_type", .sc (.s t))]
      [("destination", .sc (.s d))] =
      .ok ⟨.Read,
        [("fileName", .fname (stripQuotes f)), ("object_type", .str t)],
        [("destination", .obj ⟨v, d⟩)]⟩ := by
  constructor
  · simp [ReadAlgo_build, mkAlgoNamed, nameErrsOf, validateSchemaAcc,
      inputSchema, outputSchema, alookup, validateField, validateScalar,
      hq, mkAlgoCore, readDestination, get_object, hst, hstem]
  · simp [mkAlgoNamed, nameErrsOf, validateSchemaAcc,
      inputSchema, outputSchema, alookup, validateField, validateScalar,
      hq, mkAlgoCore, readDestination, get_object, hst, hstem, ht]

/-- C9 witness: build vs direct construction for
fileName="CoulombVertex2.yaml" with hint "CoulombVertex". -/
theorem read_build_ignores_object_type_witness :
    hasQuote (stripQuotes "CoulombVertex2.yaml") = false ∧
    stem? (stripQuotes "CoulombVertex2.yaml") = some "CoulombVertex2" ∧
    OBJECTS "CoulombVertex2" = Option.none ∧
    OBJECTS "CoulombVertex" = some .CoulombVertex ∧
    ReadAlgo_build "CoulombVertex2.yaml" "tada" (some "CoulombVertex") =
      .error (.algorithmInitializationError "Cannot figure out type of Object.") ∧
    mkAlgoNamed .Read Option.none
      [("fileName", .sc (.s "CoulombVertex2.yaml")),
       ("object_type", .sc (.s "CoulombVertex"))]
      [("destination", .sc (.s "tada"))] =
      .ok ⟨.Read,
        [("fileName", .fname "CoulombVertex2.yaml"),
         ("object_type", .str "CoulombVertex")],
        [("destination", .obj ⟨.CoulombVertex, "tada"⟩)]⟩ :=
  ⟨by decide, by decide, by decide, by decide,
    (read_build_ignores_object_type "CoulombVertex2.yaml" "tada"
      "CoulombVertex" "CoulombVertex2" .CoulombVertex
      (by decide) (by decide) (by decide) (by decide)).1,
    (read_build_ignores_object_type "CoulombVertex2.yaml" "tada"
      "CoulombVertex" "CoulombVertex2" .CoulombVertex
      (by decide) (by decide) (by decide) (by decide)).2⟩

/-! ## Lookup lemmas for validated records and their serialized forms -/

theorem alookup_none_of_not_mem_keys {α : Type} (n : String)
    (l : List (String × α)) (h : n ∉ l.map Prod.fst) :
    alookup n l = Option.none := by
  induction l with
  | nil => rfl
  | cons p rest ih =>
    simp only [List.map_cons, List.mem_cons] at h
    push_neg at h
    have hne : p.1 ≠ n := fun hc => h.1 hc.symm
    simp [alookup, hne, ih h.2]

theorem alookup_mem_keys {α : Type} (n : String) (l : List (String × α))
    (h : n ∈ l.map Prod.fst) : ∃ w, alookup n l = some w := by
  induction l with
  | nil => simp at h
  | cons p rest ih =>
    by_cases hc : p.1 = n
    · exact ⟨p.2, by simp [alookup, hc]⟩
    · simp only [List.map_cons, List.mem_cons] at h
      rcases h with h | h
      · exact absurd h.symm hc
      · obtain ⟨w, hw⟩ := ih h
        exact ⟨w, by simp [alookup, hc, hw]⟩

theorem validateSchemaAcc_lookup_not_declared (sch : List FieldSpec)
    (raw : List (String × RVal)) (n : String)
    (hn : ∀ sp ∈ sch, sp.name ≠ n) :
    alookup n (validateSchemaAcc sch raw).2 = Option.none := by
  induction sch with
  | nil => rfl
  | cons sp rest ih =>
    have h1 : sp.name ≠ n := hn sp (by simp)
    have h2 : ∀ q ∈ rest, q.name ≠ n := fun q hq => hn q (by simp [hq])
    simp only [validateSchemaAcc]
    cases halk : alookup sp.name raw with
    | none =>
      by_cases ho : sp.optional <;> simp [halk, ho, alookup, h1, ih h2]
    | some rv =>
      cases hvf : validateField sp rv <;> simp [halk, hvf, alookup, h1, ih h2]

theorem validateSchemaAcc_keys_of_ok (sch : List FieldSpec)
    (raw : List (String × RVal)) (h : (validateSchemaAcc sch raw).1 = []) :
    (validateSchemaAcc sch raw).2.map Prod.fst = sch.map (·.name) := by
  induction sch with
  | nil => rfl
  | cons sp rest ih =>
    simp only [validateSchemaAcc] at h ⊢
    cases halk : alookup sp.name raw with
    | none =>
      by_cases ho : sp.optional
      · rw [halk] at h
        simp only [ho, if_pos] at h
        simp [halk, ho, ih h]
      · rw [halk] at h
        simp [ho] at h
    | some rv =>
      cases hvf : validateField sp rv with
      | none =>
        rw [halk] at h
        simp [hvf] at h
      | some fv =>
        rw [halk] at h
        simp only [hvf] at h
        simp [halk, hvf, ih h]

theorem serializeFields_lookup_excluded (sch : List FieldSpec) (n : String)
    (he : isExcludedIn sch n = true) (fields : List (String × FVal)) :
    alookup n (serializeFields sch fields) = Option.none := by
  induction fields with
  | nil => rfl
  | cons p rest ih =>
    obtain ⟨m, v⟩ := p
    simp only [serializeFields]
    by_cases hm : isExcludedIn sch m
    · simp [hm, ih]
    · have : m ≠ n := fun hc => hm (hc ▸ he)
      simp [hm, alookup, this, ih]

theorem serializeFields_lookup_none (sch : List FieldSpec) (n : String)
    (fields : List (String × FVal)) (h : alookup n fields = Option.none) :
    alookup n (serializeFields sch fields) = Option.none := by
  induction fields with
  | nil => rfl
  | cons p rest ih =>
    obtain ⟨m, v⟩ := p
    simp only [alookup] at h
    by_cases hm : m = n
    · simp [hm] at h
    · simp only [hm, if_false] at h
      by_cases hx : isExcludedIn sch m <;>
        simp [serializeFields, hx, alookup, hm, ih h]

/-- The shape of a successfully constructed record: its kind is the
requested kind, its input is the validated input record, both field
validations were error-free, and its output is either the validated
output record or (for Read) the result of the destination validator. -/
theorem mkAlgoCore_ok_shape (k : AlgoKind) (nameErrs : List VErr)
    (inAcc outAcc : List VErr × List (String × FVal)) (a : Algo)
    (h : mkAlgoCore k nameErrs inAcc outAcc = .ok a) :
    a.kind = k ∧ a.input = inAcc.2 ∧ inAcc.1 = [] ∧ outAcc.1 = [] ∧
      (a.output = outAcc.2 ∨ readDestination inAcc.2 outAcc.2 = .ok a.output) := by
  cases k
  case Read =>
    simp only [mkAlgoCore] at h
    split at h
    next hout =>
      split at h
      next hin =>
        split at h
        next => exact absurd h (by simp)
        next => exact absurd h (by simp)
        next outVal2 heq =>
          split at h
          · obtain rfl := (Except.ok.injEq _ _).mp h
            exact ⟨rfl, rfl, hin, hout, Or.inr heq⟩
          · exact absurd h (by simp)
      next hin => exact absurd h (by simp)
    next hout => exact absurd h (by simp)
  all_goals
    simp only [mkAlgoCore] at h
    split at h
    next heq =>
      obtain ⟨h12, h4⟩ := List.append_eq_nil.mp heq
      obtain ⟨hne, h3⟩ := List.append_eq_nil.mp h12
      obtain rfl := (Except.ok.injEq _ _).mp h
      exact ⟨rfl, rfl, h3, h4, Or.inl rfl⟩
    next => exact absurd h (by simp)

/-- The input of any record built by `get_algo` is the validated input of
its kind's schema, with no input validation errors. -/
theorem get_algo_ok_input (d : RawAlgo) (a : Algo)
    (h : get_algo d = .ok a) :
    ALGOS d.name = some a.kind ∧
    a.input = (validateSchemaAcc (inputSchema a.kind) d.input).2 ∧
    (validateSchemaAcc (inputSchema a.kind) d.input).1 = [] := by
  unfold get_algo at h
  cases hA : ALGOS d.name with
  | none => rw [hA] at h; exact absurd h (by simp)
  | some k =>
    rw [hA] at h
    unfold mkAlgoNamed at h
    obtain ⟨hk, hi, hie, _, _⟩ := mkAlgoCore_ok_shape k _ _ _ a h
    subst hk
    exact ⟨rfl, hi, hie⟩

/-! ## The object_type hint in serialized representations (C6) and the
serialization of unset optional fields (C5) -/

/-- C6 counterexample: a validated Read record whose object_type hint DOES
appear in the `as_dict` representation (`d["in"] = dict(self.input)`
iterates the raw field dictionary, which exclusion does not affect), so
the hint is not excluded from every serialized representation. -/
theorem object_type_in_as_dict_cex :
    get_algo ⟨"Read",
      [("fileName", .sc (.s "CoulombVertex2.yaml")),
       ("object_type", .sc (.s "CoulombVertex"))],
      [("destination", .sc (.s "tada"))]⟩ =
      .ok ⟨.Read,
        [("fileName", .fname "CoulombVertex2.yaml"),
         ("object_type", .str "CoulombVertex")],
        [("destination", .obj ⟨.CoulombVertex, "tada"⟩)]⟩ ∧
    alookup "object_type"
      (asDictIn ⟨.Read,
        [("fileName", .fname "CoulombVertex2.yaml"),
         ("object_type", .str "CoulombVertex")],
        [("destination", .obj ⟨.CoulombVertex, "tada"⟩)]⟩) =
      some (.sc (.str "CoulombVertex")) := by decide

/-- C6 amended: for every record built by `get_algo`, the object_type
hint is absent from the `.dict()` document form (the form `to_file`
writes as yaml), while for a Read record it is present in the `as_dict`
representation. -/
theorem object_type_excluded_from_dict (d : RawAlgo) (a : Algo)
    (h : get_algo d = .ok a) :
    alookup "object_type" (dictOfAlgo a).input = Option.none ∧
    (a.kind = .Read → ∃ w, alookup "object_type" (asDictIn a) = some w) := by
  obtain ⟨hA, hi, hie⟩ := get_algo_ok_input d a h
  constructor
  · show alookup "object_type" (serializeFields (inputSchema a.kind) a.input)
      = Option.none
    cases hk : a.kind
    case Read =>
      exact serializeFields_lookup_excluded _ _ (by decide) _
    all_goals
      refine serializeFields_lookup_none _ _ _ ?_
      rw [hi, hk]
      exact validateSchemaAcc_lookup_not_declared _ _ _ (by decide)
  · intro hk
    have hkeys : a.input.map Prod.fst = (inputSchema a.kind).map (·.name) := by
      rw [hi]
      exact validateSchemaAcc_keys_of_ok _ _ hie
    have hmem : "object_type" ∈ a.input.map Prod.fst := by
      rw [hkeys, hk]; decide
    have hmem2 : "object_type" ∈ (asDictIn a).map Prod.fst := by
      unfold asDictIn
      rw [List.map_map]
      exact hmem
    exact alookup_mem_keys _ _ hmem2

/-- C6 witness: the amended statement at a concrete Read record. -/
theorem object_type_excluded_from_dict_witness :
    get_algo ⟨"Read", [("fileName", .sc (.s "EigenEnergies.yaml"))],
      [("destination", .sc (.s "EigenEnergies"))]⟩ =
      .ok ⟨.Read,
        [("fileName", .fname "EigenEnergies.yaml"), ("object_type", .null)],
        [("destination", .obj ⟨.EigenEnergies, "EigenEnergies"⟩)]⟩ ∧
    alookup "object_type"
      (dictOfAlgo ⟨.Read,
        [("fileName", .fname "EigenEnergies.yaml"), ("object_type", .null)],
        [("destination", .obj ⟨.EigenEnergies, "EigenEnergies"⟩)]⟩).input =
      Option.none ∧
    (∃ w, alookup "object_type"
      (asDictIn ⟨.Read,
        [("fileName", .fname "EigenEnergies.yaml"), ("object_type", .null)],
        [("destination", .obj ⟨.EigenEnergies, "EigenEnergies"⟩)]⟩) = some w) := by
  refine ⟨by decide, ?_, ?_⟩
  · exact (object_type_excluded_from_dict
      ⟨"Read", [("fileName", .sc (.s "EigenEnergies.yaml"))],
        [("destination", .sc (.s "EigenEnergies"))]⟩
      ⟨.Read,
        [("fileName", .fname "EigenEnergies.yaml"), ("object_type", .null)],
        [("destination", .obj ⟨.EigenEnergies, "EigenEnergies"⟩)]⟩
      (by decide)).1
  · exact (object_type_excluded_from_dict
      ⟨"Read", [("fileName", .sc (.s "EigenEnergies.yaml"))],
        [("destination", .sc (.s "EigenEnergies"))]⟩
      ⟨.Read,
        [("fileName", .fname "EigenEnergies.yaml"), ("object_type", .null)],
        [("destination", .obj ⟨.EigenEnergies, "EigenEnergies"⟩)]⟩
      (by decide)).2 rfl

/-- The float literal 1.0e-8 of the source, as the rational 1/10^8 in
already-normalized constructor form (so that kernel evaluation does not
need to reduce rational arithmetic). -/
def rat1e8 : Rat :=
  ⟨1, 100000000, by decide, Nat.coprime_one_left 100000000⟩

/-- The raw in/out mappings of `CoupledClusterAlgo.default()`, in source
order. -/
def ccDefaultRawIn : List (String × RVal) :=
  [("slicedEigenEnergies", .sc (.s "SlicedEigenEnergies")),
   ("coulombIntegrals", .sc (.s "CoulombIntegrals")),
   ("slicedCoulombVertex", .sc (.s "SlicedCoulombVertex")),
   ("method", .sc (.s "Ccsd")),
   ("integralsSliceSize", .sc (.i 100)),
   ("maxIterations", .sc (.i 20)),
   ("energyConvergence", .sc (.r rat1e8)),
   ("amplitudesConvergence", .sc (.r rat1e8)),
   ("mixer", .map [("type", .s "DiisMixer"), ("maxResidua", .i 4)])]

/-- `CoupledClusterAlgo.default()`. -/
def CoupledClusterAlgo_default : Except PyErr Algo :=
  mkAlgoNamed .CoupledCluster Option.none ccDefaultRawIn
    [("amplitudes", .sc (.s "Amplitudes"))]

/-- The validated record produced by `CoupledClusterAlgo.default()`. -/
def ccDefaultAlgo : Algo :=
  ⟨.CoupledCluster,
    [("method", .str "Ccsd"),
     ("linearized", .null),
     ("integralsSliceSize", .int 100),
     ("slicedEigenEnergies", .obj ⟨.SlicedEigenEnergies, "SlicedEigenEnergies"⟩),
     ("coulombIntegrals", .obj ⟨.CoulombIntegrals, "CoulombIntegrals"⟩),
     ("slicedCoulombVertex", .obj ⟨.SlicedCoulombVertex, "SlicedCoulombVertex"⟩),
     ("maxIterations", .int 20),
     ("energyConvergence", .float rat1e8),
     ("amplitudesConvergence", .float rat1e8),
     ("mixer", .mixer "DiisMixer" (some 4) Option.none),
     ("initialAmplitudes", .null)],
    [("amplitudes", .obj ⟨.Amplitudes, "Amplitudes"⟩)]⟩

/-- C5 evaluation: `CoupledClusterAlgo.default()` validates, but its
`.dict()` "in" mapping (the form `to_file` writes as yaml) CONTAINS the
unset optional fields linearized, initialAmplitudes and mixer ratio with
value None, which yaml renders as null — they are not omitted, contrary
to the claim and to the repo's own test test_inputs.py::test_dict. -/
theorem coupledcluster_default_keeps_null_optionals :
    CoupledClusterAlgo_default = .ok ccDefaultAlgo ∧
    alookup "linearized" (dictOfAlgo ccDefaultAlgo).input =
      some (.sc .null) ∧
    alookup "initialAmplitudes" (dictOfAlgo ccDefaultAlgo).input =
      some (.sc .null) ∧
    alookup "mixer" (dictOfAlgo ccDefaultAlgo).input =
      some (.map [("type", .str "DiisMixer"), ("maxResidua", .int 4),
        ("ratio", .null)]) := by
  refine ⟨by decide, by decide, by decide, by decide⟩

/-! ## The FName quote invariant (C10) -/

theorem validateScalar_fname_no_quote (ft : FieldType) (v : Scalar)
    (s : String) (h : validateScalar ft v = some (.fname s)) :
    hasQuote s = false := by
  unfold validateScalar at h
  cases ft <;> cases v <;> simp_all
  case fname.s w => exact h.2 ▸ h.1
  case fname.i n => exact h.2 ▸ h.1

theorem validateMixer_shape (kvs : List (String × Scalar)) (fv : FVal)
    (h : validateMixer kvs = some fv) :
    ∃ t mr rt, fv = .mixer t mr rt := by
  simp only [validateMixer] at h
  repeat split at h
  all_goals first
    | exact ⟨_, _, _, ((Option.some.injEq _ _).mp h).symm⟩
    | exact absurd h (by simp)

theorem validateField_fname_no_quote (sp : FieldSpec) (rv : RVal)
    (s : String) (h : validateField sp rv = some (.fname s)) :
    hasQuote s = false := by
  cases rv with
  | map kvs =>
    simp only [validateField] at h
    split at h
    · obtain ⟨t, mr, rt, he⟩ := validateMixer_shape kvs _ h
      exact absurd he (by simp)
    · exact absurd h (by simp)
  | sc v =>
    cases v with
    | null =>
      simp only [validateField] at h
      split at h <;> simp_all
    | s w =>
      simp only [validateField] at h
      split at h
      · exact absurd h (by simp)
      · exact validateScalar_fname_no_quote sp.type (.s w) s h
    | i n =>
      simp only [validateField] at h
      split at h
      · exact absurd h (by simp)
      · exact validateScalar_fname_no_quote sp.type (.i n) s h
    | r q =>
      simp only [validateField] at h
      split at h
      · exact absurd h (by simp)
      · exact validateScalar_fname_no_quote sp.type (.r q) s h

theorem validateSchemaAcc_fname_no_quote (sch : List FieldSpec)
    (raw : List (String × RVal)) (n s : String)
    (h : alookup n (validateSchemaAcc sch raw).2 = some (.fname s)) :
    hasQuote s = false := by
  induction sch with
  | nil => simp [validateSchemaAcc, alookup] at h
  | cons sp rest ih =>
    simp only [validateSchemaAcc] at h
    split at h
    next halk =>
      split at h
      next ho =>
        simp only [alookup] at h
        split at h
        next hn => simp at h
        next hn => exact ih h
      next ho => exact ih h
    next rv halk =>
      split at h
      next fv hvf =>
        simp only [alookup] at h
        split at h
        next hn =>
          have hfv : fv = .fname s := (Option.some.injEq _ _).mp h
          exact validateField_fname_no_quote sp rv s (hfv ▸ hvf)
        next hn => exact ih h
      next hvf => exact ih h

theorem readDestination_ok_shape (iv ov l : List (String × FVal))
    (h : readDestination iv ov = .ok l) :
    ∃ o : TypedObject, l = [("destination", .obj o)] := by
  simp only [readDestination] at h
  repeat split at h
  all_goals first
    | exact ⟨_, ((Except.ok.injEq _ _).mp h).symm⟩
    | exact absurd h (by simp)

/-- The output of any record built by `get_algo` is either the validated
output record or the result of Read's destination validator on it. -/
theorem get_algo_ok_output (d : RawAlgo) (a : Algo) (h : get_algo d = .ok a) :
    a.output = (validateSchemaAcc (outputSchema a.kind) d.output).2 ∨
    readDestination a.input
      (validateSchemaAcc (outputSchema a.kind) d.output).2 = .ok a.output := by
  unfold get_algo at h
  cases hA : ALGOS d.name with
  | none => rw [hA] at h; exact absurd h (by simp)
  | some k =>
    rw [hA] at h
    unfold mkAlgoNamed at h
    obtain ⟨hk, hi, _, _, hout⟩ := mkAlgoCore_ok_shape k _ _ _ a h
    subst hk
    rcases hout with h1 | h1
    · exact Or.inl h1
    · exact Or.inr (hi ▸ h1)

/-- C10: the FName validator strips all leading and trailing double
quotes and rejects any remaining quote, and consequently no validated
record ever holds a filename value containing a double quote (in its
input or output fields). -/
theorem fname_validation_no_quotes (orig : String) (d : RawAlgo) (a : Algo)
    (h : get_algo d = .ok a) :
    (validateScalar .fname (.s orig) =
      if hasQuote (stripQuotes orig) then Option.none
      else some (.fname (stripQuotes orig))) ∧
    (∀ n s, alookup n a.input = some (.fname s) → hasQuote s = false) ∧
    (∀ n s, alookup n a.output = some (.fname s) → hasQuote s = false) := by
  refine ⟨rfl, ?_, ?_⟩
  · intro n s hl
    obtain ⟨_, hi, _⟩ := get_algo_ok_input d a h
    rw [hi] at hl
    exact validateSchemaAcc_fname_no_quote _ _ _ _ hl
  · intro n s hl
    rcases get_algo_ok_output d a h with ho | ho
    · rw [ho] at hl
      exact validateSchemaAcc_fname_no_quote _ _ _ _ hl
    · obtain ⟨o, hsh⟩ := readDestination_ok_shape _ _ _ ho
      rw [hsh] at hl
      simp only [alookup] at hl
      split at hl <;> simp at hl

/-- C10 witness: quote stripping on a concrete quoted filename, and the
invariant on a concrete validated record. -/
theorem fname_validation_no_quotes_witness :
    validateScalar .fname (.s "\"EigenEnergies.yaml\"") =
      some (.fname "EigenEnergies.yaml") ∧
    get_algo ⟨"Write",
      [("source", .sc (.s "SlicedEigenEnergies")),
       ("fileName", .sc (.s "\"SlicedEigenEnergies.yaml\""))], []⟩ =
      .ok ⟨.Write,
        [("source", .str "SlicedEigenEnergies"),
         ("fileName", .fname "SlicedEigenEnergies.yaml"),
         ("binary", .null)], []⟩ ∧
    hasQuote "SlicedEigenEnergies.yaml" = false := by
  refine ⟨?_, by decide, ?_⟩
  · have := (fname_validation_no_quotes "\"EigenEnergies.yaml\""
      ⟨"Write",
        [("source", .sc (.s "SlicedEigenEnergies")),
         ("fileName", .sc (.s "\"SlicedEigenEnergies.yaml\""))], []⟩
      ⟨.Write,
        [("source", .str "SlicedEigenEnergies"),
         ("fileName", .fname "SlicedEigenEnergies.yaml"),
         ("binary", .null)], []⟩ (by decide)).1
    rw [this]
    decide
  · exact (fname_validation_no_quotes "x"
      ⟨"Write",
        [("source", .sc (.s "SlicedEigenEnergies")),
         ("fileName", .sc (.s "\"SlicedEigenEnergies.yaml\""))], []⟩
      ⟨.Write,
        [("source", .str "SlicedEigenEnergies"),
         ("fileName", .fname "SlicedEigenEnergies.yaml"),
         ("binary", .null)], []⟩ (by decide)).2.1 "fileName"
      "SlicedEigenEnergies.yaml" (by decide)

/-! ## objects.py: elements files expansion (C8) -/

theorem string_append_left_cancel {b x y : String} (h : b ++ x = b ++ y) :
    x = y := by
  have hd : b.data ++ x.data = b.data ++ y.data := by
    have := congrArg String.data h
    simpa [String.data_append] using this
  exact String.ext (List.append_cancel_left hd)

namespace ObjectsPy

/-- The two index letters (holes and particles), iterated by the
comprehensions of objects.py. -/
def hp : List String := ["h", "p"]

/-- Amplitudes component suffixes (objects.py). -/
def ampExts : List String :=
  ["ph", "pphh"].map (fun a => ".components." ++ a ++ ".elements")

/-- CoulombIntegrals component suffixes: the four nested `for x in "hp"`
loops of objects.py, innermost index fastest. -/
def ciExts : List String :=
  hp.flatMap (fun a => hp.flatMap (fun b => hp.flatMap (fun c =>
    hp.map (fun dd => ".components." ++ a ++ b ++ c ++ dd ++ ".elements"))))

/-- SlicedCoulombVertex component suffixes (objects.py). -/
def scvExts : List String :=
  hp.flatMap (fun a => hp.map (fun b => ".components." ++ a ++ b ++ ".elements"))

/-- SlicedEigenEnergies component suffixes (objects.py). -/
def seeExts : List String :=
  hp.map (fun a => ".components." ++ a ++ ".elements")

/-- `elements_files_exts` per variant in objects.py: the base class
default is the single ".elements" suffix, overridden by the sliced and
integral variants; ResultDict sets it to None. -/
def elements_files_exts : ObjectType → Option (List String)
  | .Amplitudes => some ampExts
  | .CoulombIntegrals => some ciExts
  | .SlicedCoulombVertex => some scvExts
  | .SlicedEigenEnergies => some seeExts
  | .ResultDict => Option.none
  | _ => some [".elements"]

/-- `Object.elements_files` for a single string basename: the empty set
when the suffix tuple is falsy (None or empty), otherwise the set of
basename+suffix paths.  The suffixes contain no path separator, so Path
construction and equality coincide with plain string concatenation and
equality; the tuple/list basename branch (paired source/destination
relocation) is not exercised by any claim and is not modelled. -/
def elements_files (t : ObjectType) (basename : String) : Finset String :=
  match elements_files_exts t with
  | Option.none => ∅
  | some exts =>
      if exts = [] then ∅
      else (exts.map (fun e => basename ++ e)).toFinset

end ObjectsPy

/-- All strings of a given length over the letters h and p: the claim's
characterization of the CoulombIntegrals component indices. -/
def specHP : Nat → List String
  | 0 => [""]
  | n + 1 => (["h", "p"]).flatMap (fun c => (specHP n).map (fun s => c ++ s))

example : ObjectsPy.elements_files .EigenEnergies "in/Mybase" =
    {"in/Mybase.elements"} := by decide
example : ObjectsPy.elements_files .SlicedEigenEnergies "in/slicedee" =
    ({"in/slicedee.components.h.elements",
      "in/slicedee.components.p.elements"} : Finset String) := by decide

/-- C8: for any base name b, the elements files of a CoulombIntegrals
object are exactly the 16 paths b.components.XXXX.elements with XXXX
ranging over all length-4 strings over the letters h and p: none missing
and none extra (the set has exactly 16 elements). -/
theorem coulomb_integrals_elements_files (b : String) :
    ObjectsPy.elements_files .CoulombIntegrals b =
      ((specHP 4).map
        (fun s => b ++ (".components." ++ s ++ ".elements"))).toFinset ∧
    (ObjectsPy.elements_files .CoulombIntegrals b).card = 16 := by
  have h0 : ObjectsPy.ciExts =
      (specHP 4).map (fun s => ".components." ++ s ++ ".elements") := by
    decide
  have hsel : ObjectsPy.elements_files .CoulombIntegrals b =
      (ObjectsPy.ciExts.map (fun e => b ++ e)).toFinset := by
    simp only [ObjectsPy.elements_files, ObjectsPy.elements_files_exts]
    rw [if_neg (by decide)]
  have hinj : Function.Injective (fun e : String => b ++ e) :=
    fun x y h => string_append_left_cancel h
  constructor
  · rw [hsel, h0, List.map_map]
    rfl
  · rw [hsel]
    rw [List.toFinset_card_of_nodup (List.Nodup.map hinj (by decide))]
    rw [List.length_map]
    decide

/-! ## The round-trip law (C1): validity of in-memory records -/

/-- Whether a validated field value is well-typed for its field spec
(the shape every value produced by validation has): matching constructor,
no double quote in an FName, the declared variant on an object handle,
None only on Optional fields. -/
def fvalMatches (sp : FieldSpec) (v : FVal) : Bool :=
  match sp.type, v with
  | .str, .str _ => true
  | .int, .int _ => true
  | .float, .float _ => true
  | .fname, .fname s => !hasQuote s
  | .obj t, .obj o => o.type = t
  | .mixer, .mixer _ _ _ => true
  | _, .null => sp.optional
  | _, _ => false

/-- Whether a validated record carries exactly the schema's fields, in
declaration order, with well-typed values. -/
def recordMatches : List FieldSpec → List (String × FVal) → Bool
  | [], [] => true
  | sp :: sch, (n, v) :: fs =>
      (n == sp.name) && fvalMatches sp v && recordMatches sch fs
  | _, _ => false

/-- The shape of a Read record's output after the destination validator:
a single destination field holding an object handle. -/
def readOutMatches : List (String × FVal) → Bool
  | [(n, .obj _)] => n == "destination"
  | _ => false

/-- A valid in-memory record: what construction through the schemas (and,
for Read, the destination validator) guarantees. -/
def ValidAlgo (a : Algo) : Bool :=
  recordMatches (inputSchema a.kind) a.input &&
    (match a.kind with
     | .Read => readOutMatches a.output
     | _ => recordMatches (outputSchema a.kind) a.output)

/-- For a Read record: the filename stem resolves in the registry to the
destination's variant (the hypothesis under which reloading re-derives
the same destination); vacuously true for other kinds. -/
def readStemOk (a : Algo) : Bool :=
  match a.kind with
  | .Read =>
      (match alookup "fileName" a.input, a.output with
       | some (.fname f), [(_, .obj o)] =>
           decide (OBJECTS (stem f) = some o.type)
       | _, _ => false)
  | _ => true

/-- Replace the values of excluded fields by None: the information loss
of a store/load cycle (an excluded optional field is not serialized and
reloads as None). -/
def stripExcluded (sch : List FieldSpec) : List (String × FVal) → List (String × FVal)
  | [] => []
  | (n, v) :: fs =>
      (n, if isExcludedIn sch n then FVal.null else v) :: stripExcluded sch fs

/-- The record a store/load cycle reconstructs: identical except that
excluded fields (Read's object_type hint) are reset to None. -/
def stripAlgo (a : Algo) : Algo :=
  ⟨a.kind, stripExcluded (inputSchema a.kind) a.input,
    stripExcluded (outputSchema a.kind) a.output⟩

theorem alookup_map_value {α β : Type} (g : α → β) (n : String)
    (l : List (String × α)) :
    alookup n (l.map (fun p => (p.1, g p.2))) = (alookup n l).map g := by
  induction l with
  | nil => rfl
  | cons p rest ih =>
    by_cases hk : p.1 = n <;> simp [alookup, hk, ih]

theorem recordMatches_keys (sch : List FieldSpec)
    (fields : List (String × FVal)) (h : recordMatches sch fields = true) :
    fields.map Prod.fst = sch.map (·.name) := by
  induction sch generalizing fields with
  | nil =>
    cases fields with
    | nil => rfl
    | cons p fs => simp [recordMatches] at h
  | cons sp rest ih =>
    cases fields with
    | nil => simp [recordMatches] at h
    | cons p fs =>
      obtain ⟨n, v⟩ := p
      simp only [recordMatches, Bool.and_eq_true, beq_iff_eq] at h
      obtain ⟨⟨h1, _⟩, h3⟩ := h
      simp [h1, ih fs h3]

theorem isExcludedIn_false_of_not_mem (sch : List FieldSpec) (n : String)
    (h : n ∉ sch.map (·.name)) : isExcludedIn sch n = false := by
  induction sch with
  | nil => rfl
  | cons sp rest ih =>
    simp only [List.map_cons, List.mem_cons] at h
    push_neg at h
    have h1 : ¬sp.name = n := fun hc => h.1 hc.symm
    simp [isExcludedIn, List.any_cons, h1]
    have := ih h.2
    simpa [isExcludedIn] using this

theorem isExcludedIn_cons_of_ne (sp : FieldSpec) (rest : List FieldSpec)
    (n : String) (h : sp.name ≠ n) :
    isExcludedIn (sp :: rest) n = isExcludedIn rest n := by
  simp [isExcludedIn, List.any_cons, h]

theorem isExcludedIn_cons_of_self (sp : FieldSpec) (rest : List FieldSpec) :
    isExcludedIn (sp :: rest) sp.name =
      (sp.excluded || isExcludedIn rest sp.name) := by
  simp [isExcludedIn, List.any_cons]

theorem serializeFields_smaller (sp : FieldSpec) (rest : List FieldSpec)
    (fs : List (String × FVal)) (h : sp.name ∉ fs.map Prod.fst) :
    serializeFields (sp :: rest) fs = serializeFields rest fs := by
  induction fs with
  | nil => rfl
  | cons p tail ih =>
    obtain ⟨m, v⟩ := p
    simp only [List.map_cons, List.mem_cons] at h
    push_neg at h
    have hne : sp.name ≠ m := h.1
    have hexc := isExcludedIn_cons_of_ne sp rest m hne
    simp only [serializeFields, hexc, ih h.2]

theorem stripExcluded_smaller (sp : FieldSpec) (rest : List FieldSpec)
    (fs : List (String × FVal)) (h : sp.name ∉ fs.map Prod.fst) :
    stripExcluded (sp :: rest) fs = stripExcluded rest fs := by
  induction fs with
  | nil => rfl
  | cons p tail ih =>
    obtain ⟨m, v⟩ := p
    simp only [List.map_cons, List.mem_cons] at h
    push_neg at h
    have hexc := isExcludedIn_cons_of_ne sp rest m h.1
    simp only [stripExcluded, hexc, ih h.2]

theorem validateSchemaAcc_extra_key (sch : List FieldSpec)
    (raw : List (String × RVal)) (m : String) (x : RVal)
    (h : ∀ sp ∈ sch, sp.name ≠ m) :
    validateSchemaAcc sch ((m, x) :: raw) = validateSchemaAcc sch raw := by
  induction sch with
  | nil => rfl
  | cons sp rest ih =>
    have h1 : ¬m = sp.name := fun hc => h sp (by simp) hc.symm
    have h2 : ∀ q ∈ rest, q.name ≠ m := fun q hq => h q (by simp [hq])
    simp only [validateSchemaAcc, alookup, h1, if_false, ih h2]

theorem dropWhile_quote_of_not_mem {l : List Char} (h : '"' ∉ l) :
    l.dropWhile (· = '"') = l := by
  cases l with
  | nil => rfl
  | cons c cs =>
    have hc : ¬(c = '"') := fun hc => h (by simp [hc])
    simp [List.dropWhile_cons, hc]

theorem stripQuotes_eq_self {s : String} (h : hasQuote s = false) :
    stripQuotes s = s := by
  have hmem : '"' ∉ s.data := by
    intro hc
    have hcon : s.data.contains '"' = true :=
      List.contains_iff_exists_mem_beq.mpr ⟨'"', hc, by simp⟩
    rw [show hasQuote s = s.data.contains '"' from rfl, hcon] at h
    simp at h
  show String.mk (stripQuoteChars s.data) = s
  unfold stripQuoteChars
  rw [dropWhile_quote_of_not_mem hmem,
    dropWhile_quote_of_not_mem (by simpa using hmem), List.reverse_reverse]

/-- Serializing a validated value and reading the yaml back validates to
the same value: the per-field round trip. -/
theorem validateField_roundtrip (sp : FieldSpec) (v : FVal)
    (hm : fvalMatches sp v = true) :
    validateField sp (rawOfD (fvalToD v)) = some v := by
  unfold fvalMatches at hm
  split at hm
  · next hty =>
      simp [validateField, fvalToD, rawOfD, scalarOfD, validateScalar, hty]
  · next hty =>
      simp [validateField, fvalToD, rawOfD, scalarOfD, validateScalar, hty]
  · next hty =>
      simp [validateField, fvalToD, rawOfD, scalarOfD, validateScalar, hty]
  · next s hty =>
      have hq : hasQuote s = false := by simpa using hm
      simp [validateField, fvalToD, rawOfD, scalarOfD, validateScalar, hty,
        stripQuotes_eq_self hq, hq]
  · next t o hty =>
      have ht : o.type = t := by simpa using hm
      cases o
      subst ht
      simp [validateField, fvalToD, rawOfD, scalarOfD, validateScalar, hty]
  · next t mr rt hty =>
      cases mr <;> cases rt <;>
        simp [validateField, fvalToD, rawOfD, scalarOfD, validateMixer,
          alookup, optIntD, optRatD, hty]
  · next hty =>
      simp [validateField, fvalToD, rawOfD, scalarOfD, hm]
  · exact absurd hm (by simp)

/-- Schema-level round trip: serializing a well-typed record, reading the
yaml back and re-validating reproduces the record error-free, except that
excluded fields come back as None. -/
theorem validateSchemaAcc_roundtrip (sch : List FieldSpec) :
    ∀ fields : List (String × FVal),
    (sch.map (·.name)).Nodup →
    (∀ sp ∈ sch, sp.excluded = true → sp.optional = true) →
    recordMatches sch fields = true →
    validateSchemaAcc sch
      ((serializeFields sch fields).map (fun p => (p.1, rawOfD p.2))) =
      ([], stripExcluded sch fields) := by
  induction sch with
  | nil =>
    intro fields hnd hopt hm
    cases fields with
    | nil => rfl
    | cons p fs => simp [recordMatches] at hm
  | cons sp rest ih =>
    intro fields hnd hopt hm
    cases fields with
    | nil => simp [recordMatches] at hm
    | cons p fs =>
      obtain ⟨m, v⟩ := p
      simp only [recordMatches, Bool.and_eq_true, beq_iff_eq] at hm
      obtain ⟨⟨hname, hfv⟩, hrest⟩ := hm
      subst hname
      have hkeys : fs.map Prod.fst = rest.map (·.name) :=
        recordMatches_keys rest fs hrest
      have hndr : (rest.map (·.name)).Nodup := (List.nodup_cons.mp hnd).2
      have hnm : sp.name ∉ rest.map (·.name) := (List.nodup_cons.mp hnd).1
      have hnotin : sp.name ∉ fs.map Prod.fst := by rw [hkeys]; exact hnm
      have hoptr : ∀ q ∈ rest, q.excluded = true → q.optional = true :=
        fun q hq => hopt q (by simp [hq])
      have hrec := ih fs hndr hoptr hrest
      have hrestname : ∀ q ∈ rest, q.name ≠ sp.name :=
        fun q hq hc => hnm (hc ▸ List.mem_map_of_mem (·.name) hq)
      cases hex : isExcludedIn (sp :: rest) sp.name
      case true =>
        -- the head field is excluded: it is not serialized, and reloads
        -- as None (it must be optional)
        have hexr : isExcludedIn rest sp.name = false :=
          isExcludedIn_false_of_not_mem rest sp.name hnm
        have hspe : sp.excluded = true := by
          rw [isExcludedIn_cons_of_self] at hex
          rw [hexr] at hex
          simpa using hex
        have hspo : sp.optional = true := hopt sp (by simp) hspe
        have hser : serializeFields (sp :: rest) ((sp.name, v) :: fs) =
            serializeFields rest fs := by
          simp only [serializeFields, hex, if_true]
          exact serializeFields_smaller sp rest fs hnotin
        rw [hser]
        have hlk : alookup sp.name
            ((serializeFields rest fs).map (fun p => (p.1, rawOfD p.2))) =
            Option.none := by
          rw [alookup_map_value]
          rw [serializeFields_lookup_none rest sp.name fs
            (alookup_none_of_not_mem_keys sp.name fs hnotin)]
          rfl
        simp only [validateSchemaAcc, hlk, hspo, if_true, hrec]
        simp [stripExcluded, hex,
          stripExcluded_smaller sp rest fs hnotin]
      case false =>
        -- the head field is serialized and revalidates to itself
        have hser : serializeFields (sp :: rest) ((sp.name, v) :: fs) =
            (sp.name, fvalToD v) :: serializeFields rest fs := by
          simp only [serializeFields, hex, Bool.false_eq_true, if_false]
          rw [serializeFields_smaller sp rest fs hnotin]
        rw [hser]
        simp only [List.map_cons]
        have hlk : alookup sp.name
            ((sp.name, rawOfD (fvalToD v)) ::
              (serializeFields rest fs).map (fun p => (p.1, rawOfD p.2))) =
            some (rawOfD (fvalToD v)) := by
          simp [alookup]
        simp only [validateSchemaAcc, hlk, validateField_roundtrip sp v hfv]
        rw [validateSchemaAcc_extra_key rest _ sp.name _ hrestname, hrec]
        simp [stripExcluded, hex,
          stripExcluded_smaller sp rest fs hnotin]

theorem ALGOS_kindName (k : AlgoKind) : ALGOS (kindName k) = some k := by
  cases k <;> decide

theorem inputSchema_nodup (k : AlgoKind) :
    ((inputSchema k).map (·.name)).Nodup := by
  cases k <;> decide

theorem inputSchema_excl_opt (k : AlgoKind) :
    ∀ sp ∈ inputSchema k, sp.excluded = true → sp.optional = true := by
  cases k <;> decide

theorem outputSchema_nodup (k : AlgoKind) :
    ((outputSchema k).map (·.name)).Nodup := by
  cases k <;> decide

theorem outputSchema_excl_opt (k : AlgoKind) :
    ∀ sp ∈ outputSchema k, sp.excluded = true → sp.optional = true := by
  cases k <;> decide

theorem read_output_shape (l : List (String × FVal))
    (h : readOutMatches l = true) :
    ∃ o, l = [("destination", FVal.obj o)] := by
  unfold readOutMatches at h
  split at h
  next n o =>
    have hn : n = "destination" := by simpa using h
    exact ⟨o, by rw [hn]⟩
  next => simp at h

theorem read_input_shape (l : List (String × FVal))
    (h : recordMatches (inputSchema .Read) l = true) :
    ∃ f otv, l = [("fileName", FVal.fname f), ("object_type", otv)] ∧
      hasQuote f = false := by
  cases l with
  | nil => simp [recordMatches, inputSchema] at h
  | cons p1 t1 =>
    obtain ⟨n1, v1⟩ := p1
    cases t1 with
    | nil => simp [recordMatches, inputSchema] at h
    | cons p2 t2 =>
      obtain ⟨n2, v2⟩ := p2
      cases t2 with
      | cons p3 t3 => simp [recordMatches, inputSchema] at h
      | nil =>
        simp only [inputSchema, recordMatches, Bool.and_eq_true,
          beq_iff_eq] at h
        obtain ⟨⟨hn1, hv1⟩, ⟨hn2, hv2⟩, -⟩ := h
        cases v1 <;> simp [fvalMatches] at hv1
        next f =>
          exact ⟨f, v2, by rw [hn1, hn2], by simpa using hv1⟩

theorem serializeFields_stripExcluded (sch : List FieldSpec)
    (fs : List (String × FVal)) :
    serializeFields sch (stripExcluded sch fs) = serializeFields sch fs := by
  induction fs with
  | nil => rfl
  | cons p tail ih =>
    obtain ⟨m, v⟩ := p
    by_cases hx : isExcludedIn sch m = true
    · simp [stripExcluded, serializeFields, hx, ih]
    · simp only [Bool.not_eq_true] at hx
      simp [stripExcluded, serializeFields, hx, ih]

/-- Stripping excluded fields does not change the serialized document:
the two records are equal under the model's dict-based equality. -/
theorem dictOfAlgo_stripAlgo (a : Algo) :
    dictOfAlgo (stripAlgo a) = dictOfAlgo a := by
  unfold dictOfAlgo stripAlgo
  simp [serializeFields_stripExcluded]

/-- Per-record round trip: serializing a valid record to the document
form, through yaml, and re-validating with `get_algo` succeeds and
reproduces the record up to the reset of the excluded object_type hint
(for Read, provided its filename stem resolves to the destination's
variant). -/
theorem get_algo_dump (k : AlgoKind) (ain aout : List (String × FVal)) :
    get_algo (dumpAlgo (dictOfAlgo ⟨k, ain, aout⟩)) =
      mkAlgoNamed k (some (kindName k))
        ((serializeFields (inputSchema k) ain).map (fun p => (p.1, rawOfD p.2)))
        ((serializeFields (outputSchema k) aout).map (fun p => (p.1, rawOfD p.2))) := by
  simp only [get_algo, dumpAlgo, dictOfAlgo, ALGOS_kindName]

theorem nameErrsOf_default (k : AlgoKind) :
    nameErrsOf k (some (kindName k)) = [] := by
  simp [nameErrsOf]

theorem algo_roundtrip (a : Algo) (hv : ValidAlgo a = true)
    (hs : readStemOk a = true) :
    get_algo (dumpAlgo (dictOfAlgo a)) = .ok (stripAlgo a) := by
  obtain ⟨k, ain, aout⟩ := a
  unfold ValidAlgo at hv
  simp only [Bool.and_eq_true] at hv
  obtain ⟨hin, hout⟩ := hv
  unfold readStemOk at hs
  cases k
  case Read =>
    obtain ⟨o, rfl⟩ := read_output_shape aout hout
    obtain ⟨f, otv, rfl, hqf⟩ := read_input_shape ain hin
    obtain ⟨ot, onm⟩ := o
    have hstem : OBJECTS (stem f) = some ot := by
      simp only [alookup] at hs
      simpa using hs
    have hst2 : stem? f = some (stem f) :=
      stem?_some_of_registered f ot hstem
    simp [get_algo, dumpAlgo, dictOfAlgo, ALGOS, kindName, mkAlgoNamed,
      nameErrsOf, mkAlgoCore, serializeFields, isExcludedIn, inputSchema,
      outputSchema, validateSchemaAcc, alookup, validateField,
      validateScalar, fvalToD, rawOfD, scalarOfD, readDestination,
      get_object, hst2, hstem, stripAlgo, stripExcluded,
      stripQuotes_eq_self hqf, hqf]
  all_goals
    rw [get_algo_dump]
    unfold mkAlgoNamed
    rw [nameErrsOf_default]
    rw [validateSchemaAcc_roundtrip _ ain (inputSchema_nodup _)
      (inputSchema_excl_opt _) hin]
    rw [validateSchemaAcc_roundtrip _ aout (outputSchema_nodup _)
      (outputSchema_excl_opt _) hout]
    rfl

theorem loadProgram_roundtrip (P : List Algo) :
    (∀ a ∈ P, ValidAlgo a = true ∧ readStemOk a = true) →
    loadProgram (storeProgram P) = .ok (P.map stripAlgo) := by
  induction P with
  | nil => intro h; rfl
  | cons a rest ih =>
    intro h
    have ha := h a (by simp)
    have hr : ∀ b ∈ rest, ValidAlgo b = true ∧ readStemOk b = true :=
      fun b hb => h b (by simp [hb])
    show loadProgram (dumpAlgo (dictOfAlgo a) :: storeProgram rest) = _
    simp only [loadProgram, algo_roundtrip a ha.1 ha.2, ih hr, List.map_cons]

/-- C1 amended: for every valid Program in which each Read step's
filename stem resolves in the registry to that step's destination
variant, store followed by load succeeds and reproduces the Program with
each Read step's excluded object_type hint reset to None — a record
equal to the original under the model's own equality, which compares the
`.dict()` document forms (second conjunct).  Without that stem condition
the round trip fails (see the counterexample): a Read step that relied
on the unserialized object_type hint either fails to reload or reloads
to a different variant. -/
theorem program_roundtrip (P : List Algo)
    (h : ∀ a ∈ P, ValidAlgo a = true ∧ readStemOk a = true) :
    loadProgram (storeProgram P) = .ok (P.map stripAlgo) ∧
    storeDicts (P.map stripAlgo) = storeDicts P := by
  refine ⟨loadProgram_roundtrip P h, ?_⟩
  unfold storeDicts
  rw [List.map_map]
  have hc : dictOfAlgo ∘ stripAlgo = dictOfAlgo := funext dictOfAlgo_stripAlgo
  rw [hc]

/-- A valid Read record relying on the object_type hint: the filename
stem "CoulombVertex2" is not registered, so the hint was necessary. -/
def readHinted : Algo :=
  ⟨.Read,
    [("fileName", .fname "CoulombVertex2.yaml"),
     ("object_type", .str "CoulombVertex")],
    [("destination", .obj ⟨.CoulombVertex, "tada"⟩)]⟩

/-- C1 counterexample: a valid one-step Program (its construction
succeeds, mirroring the repo's own test) whose store drops the excluded
object_type hint, so loading the stored document back raises
AlgorithmInitializationError instead of reproducing the Program: the
unconditional round-trip law is false. -/
theorem program_roundtrip_cex :
    mkAlgoNamed .Read (some "Read")
      [("fileName", .sc (.s "CoulombVertex2.yaml")),
       ("object_type", .sc (.s "CoulombVertex"))]
      [("destination", .sc (.s "tada"))] = .ok readHinted ∧
    ValidAlgo readHinted = true ∧
    loadProgram (storeProgram [readHinted]) =
      .error (.algorithmInitializationError "Cannot figure out type of Object.") :=
  ⟨by decide, by decide, by decide⟩

/-- A three-step demonstration Program: Read EigenEnergies, derive the
sliced energies, write them out (the in-memory construction of the
repo's own round-trip test). -/
def demoProgram : List Algo :=
  [⟨.Read,
     [("fileName", .fname "EigenEnergies.yaml"), ("object_type", .null)],
     [("destination", .obj ⟨.EigenEnergies, "EigenEnergies"⟩)]⟩,
   ⟨.DefineHolesAndParticles,
     [("eigenEnergies", .obj ⟨.EigenEnergies, "EigenEnergies"⟩)],
     [("slicedEigenEnergies",
       .obj ⟨.SlicedEigenEnergies, "SlicedEigenEnergies"⟩)]⟩,
   ⟨.Write,
     [("source", .str "SlicedEigenEnergies"),
      ("fileName", .fname "SlicedEigenEnergies.yaml"), ("binary", .null)],
     []⟩]

/-- C1 witness: the amended round trip at the concrete three-step
Program. -/
theorem program_roundtrip_witness :
    (∀ a ∈ demoProgram, ValidAlgo a = true ∧ readStemOk a = true) ∧
    loadProgram (storeProgram demoProgram) =
      .ok (demoProgram.map stripAlgo) ∧
    storeDicts (demoProgram.map stripAlgo) = storeDicts demoProgram :=
  ⟨by decide, (program_roundtrip demoProgram (by decide)).1,
    (program_roundtrip demoProgram (by decide)).2⟩
